import Mathlib

/-!
Verification of `eng/_util/cmd/sign/sign.go` (build-artifact signing tool).

Strings are embedded as `List Char`, file contents as `List Nat` (byte
values).  Fallible operations return `Option`/`Except`; file-system and
stream close errors are passed in explicitly so that the error-combination
logic of the source is visible in the embedding.
-/

namespace GoSign

/-- Archive paths, entry names and profile identifiers as character lists. -/
abbrev Str : Type := List Char

/-- File contents as byte values. -/
abbrev Bytes : Type := List Nat

/-- Coercion from Lean string literals to the `Str` embedding. -/
def s2l (s : String) : Str := s.toList

/-- The path separator used by the glob rules (`*` never crosses it). -/
def sep : Char := '/'

/-- Modelled from the spec: the suffixes of `n` reachable by letting a glob
`*` consume a (possibly empty) run of non-separator characters.  The real
matcher is Go's `path/filepath.Match`, which is standard-library code and
not part of this repository; the spec pins its semantics as "path-glob,
`*` not crossing `/`", case-sensitive. -/
def starSuffixes : Str → List Str
  | [] => [[]]
  | d :: n => (d :: n) :: (if d = sep then [] else starSuffixes n)

/-- Modelled from the spec: glob matching with literal characters and `*`
that matches any run of non-separator characters (the only metacharacter
appearing in the program's patterns). -/
def globMatchFn : Str → Str → Bool
  | [] => fun n => n.isEmpty
  | c :: p => fun n =>
      if c = '*' then (starSuffixes n).any (globMatchFn p)
      else
        match n with
        | [] => false
        | d :: n1 => c == d && globMatchFn p n1

/-- Entry point of the glob matcher: `pathMatch pattern name`. -/
def pathMatch (pattern name : Str) : Bool := globMatchFn pattern name

/-- Embeds `matchOrPanic(pattern, name)`: a thin wrapper over the library
matcher (the panic branch fires only on malformed patterns, which the
embedded matcher has no notion of). -/
def matchOrPanic (pattern name : Str) : Bool := pathMatch pattern name

/-- Embeds `strings.HasSuffix(s, suffix)`. -/
def hasSuffix (s suffix : Str) : Bool := suffix.isSuffixOf s

/-- Embeds `filepath.Join(a, b)` for the non-empty, already-clean paths the
program builds: `a ++ "/" ++ b`. -/
def pathJoin (a b : Str) : Str := a ++ sep :: b

/-- Embeds the `archiveType` enumeration of the source. -/
inductive ArchiveType : Type
  | zipArchive
  | tarGzArchive
deriving DecidableEq

/-- Embeds the `archive` struct: source path, container kind, macOS flag.
(The `extractEntries` field of the source is never assigned or read and is
omitted.) -/
structure Archive : Type where
  path : Str
  archiveType : ArchiveType
  macOS : Bool
deriving DecidableEq

/-- Embeds `(a *archive) entryExtractDir()`: `a.path + ".extracted"`. -/
def Archive.entryExtractDir (a : Archive) : Str := a.path ++ s2l (".extracted")

/-- Embeds `newArchive(p)`.  Note that the source passes `p` as the PATTERN
argument and the literal glob as the NAME argument in the first two
`matchOrPanic` calls (its signature is `matchOrPanic(pattern, name)`),
which the embedding reproduces faithfully; the darwin check uses the
opposite (correct) order, as in the source. -/
def newArchive (p : Str) : Except Str Archive :=
  let kind : Option ArchiveType :=
    if matchOrPanic p (s2l ("go*.zip")) then some ArchiveType.zipArchive
    else if matchOrPanic p (s2l ("go*.tar.gz")) then some ArchiveType.tarGzArchive
    else none
  match kind with
  | none => Except.error (s2l ("unknown archive type: ") ++ p)
  | some t =>
      Except.ok
        { path := p
          archiveType := t
          macOS := matchOrPanic (s2l ("go*darwin*.tar.gz")) p }

/-- Embeds the `fileToSign` struct. -/
structure FileToSign : Type where
  archivePath : Str
  fullPath : Str
  authenticode : Str
deriving DecidableEq

/-- Embeds `(a *archive) entrySignInfo(name)`. -/
def Archive.entrySignInfo (a : Archive) (name : Str) : Option FileToSign :=
  if a.archiveType = ArchiveType.zipArchive then
    if hasSuffix name (s2l (".exe")) then
      some { archivePath := a.path
             fullPath := pathJoin a.entryExtractDir name
             authenticode := s2l ("Microsoft400") }
    else none
  else if a.macOS then
    if matchOrPanic (s2l ("go/bin/*")) name || matchOrPanic (s2l ("pkg/tool/*/*")) name then
      some { archivePath := a.path
             fullPath := pathJoin a.entryExtractDir name
             authenticode := s2l ("MacDeveloperHarden") }
    else none
  else none

/-! Container model.  `μ` abstracts all header fields other than the entry
name (permissions, timestamps, compression method, tar typeflag, ...): the
source never inspects them, it only copies whole headers, so preserving
the abstract value is exactly preserving those fields.  `ε` abstracts I/O
error values. -/

variable {μ ε σ : Type}

/-- One entry header: the name plus the abstracted remaining fields
(`zip.FileHeader` for zip entries, `tar.Header` for tar entries). -/
structure FileHeader (μ : Type) : Type where
  name : Str
  metadata : μ
deriving DecidableEq

/-- One container entry as seen during a walk: its header and the result of
reading its byte stream (`f.Open()`/`io.Copy` failures become `.error`). -/
structure ContainerEntry (μ ε : Type) : Type where
  header : FileHeader μ
  content : Except ε Bytes

/-- Result of the tar reader's final `r.Next()` call: clean end of archive
(`io.EOF`) or a read error. -/
inductive TarEnd (ε : Type) : Type
  | eof
  | fail (e : ε)

/-- The on-disk archive file, as readable through either container
library: the zip central directory (`zr.File`), and the sequential tar
stream with its terminal `r.Next()` outcome. -/
structure ContainerData (μ ε : Type) : Type where
  zipFiles : List (ContainerEntry μ ε)
  tarEntries : List (ContainerEntry μ ε)
  tarEnd : TarEnd ε

/-- Embeds `eachZipEntry(r, f)`: visits `r.File` in order, aborting with
the first non-nil callback error.  The Go callback mutates captured state;
the embedding threads that state explicitly through `σ`. -/
def eachZipEntry (f : σ → ContainerEntry μ ε → σ × Option ε) :
    List (ContainerEntry μ ε) → σ → σ × Option ε
  | [], s => (s, none)
  | x :: rest, s =>
    match f s x with
    | (s1, some e) => (s1, some e)
    | (s1, none) => eachZipEntry f rest s1

/-- Embeds `eachTarGzEntry(r, f)`: `r.Next()` yields the listed entries and
then `term`; `io.EOF` is mapped to a nil error, any other reader error is
returned; a non-nil callback error aborts the iteration. -/
def eachTarGzEntry (f : σ → FileHeader μ → Except ε Bytes → σ × Option ε) :
    List (ContainerEntry μ ε) → TarEnd ε → σ → σ × Option ε
  | [], TarEnd.eof, s => (s, none)
  | [], TarEnd.fail e, s => (s, some e)
  | x :: rest, term, s =>
    match f s x.header x.content with
    | (s1, some e) => (s1, some e)
    | (s1, none) => eachTarGzEntry f rest term s1

/-- Embeds the recurring idiom
`if closeErr := c.Close(); err == nil { err = closeErr }`:
an already-recorded error wins, otherwise the close error is taken. -/
def firstErr (err closeErr : Option ε) : Option ε :=
  match err with
  | some e => some e
  | none => closeErr

/-- Embeds `writeFile(path, r)`.  Returns the write that reached the file
system at `path` (`none` when `os.Create` itself failed; a copy failure
leaves a created file whose partial content is modeled as empty) together
with the returned error: the create error, else the copy error, else the
close error. -/
def writeFile (path : Str) (createErr : Option ε) (content : Except ε Bytes)
    (closeErr : Option ε) : Option (Str × Bytes) × Option ε :=
  match createErr with
  | some e => (none, some e)
  | none =>
    match content with
    | Except.error e => (some (path, []), firstErr (some e) closeErr)
    | Except.ok b => (some (path, b), firstErr none closeErr)

/-- Embeds `writeFileAndCloseReader(path, r)`: `writeFile` followed by
`r.Close()`, whose error is taken only if everything else succeeded. -/
def writeFileAndCloseReader (path : Str) (createErr : Option ε) (content : Except ε Bytes)
    (closeErr readerCloseErr : Option ε) : Option (Str × Bytes) × Option ε :=
  let r := writeFile path createErr content closeErr
  (r.1, firstErr r.2 readerCloseErr)

/-- Embeds the zip loop of `prepareEntriesToSign`: for each entry with sign
info, stage its bytes at `info.fullPath` via `writeFileAndCloseReader` and
record the info; the first failure aborts (the caller then reports nil
results).  Staged-file create/close errors are modeled as absent; entry
read failures are carried by the entry's `content`. -/
def zipExtractLoop (a : Archive) :
    List (ContainerEntry μ ε) → List (Str × Bytes) × List FileToSign × Option ε
  | [] => ([], [], none)
  | f :: rest =>
    match a.entrySignInfo f.header.name with
    | none => zipExtractLoop a rest
    | some info =>
      match writeFileAndCloseReader info.fullPath none f.content none none with
      | (w, some e) => (w.toList, [], some e)
      | (w, none) =>
        let r := zipExtractLoop a rest
        (w.toList ++ r.1, info :: r.2.1, r.2.2)

/-- Embeds the tar callback of `prepareEntriesToSign`.  Note the staged
path: the source calls `writeFile(filepath.Join(info.fullPath, header.Name), tr)`,
joining the entry name onto `info.fullPath`, which already ends in the
entry name. -/
def tarExtractStep (a : Archive) (s : List (Str × Bytes) × List FileToSign)
    (h : FileHeader μ) (c : Except ε Bytes) :
    (List (Str × Bytes) × List FileToSign) × Option ε :=
  match a.entrySignInfo h.name with
  | none => (s, none)
  | some info =>
    match writeFile (pathJoin info.fullPath h.name) none c none with
    | (w, some e) => ((s.1 ++ w.toList, s.2), some e)
    | (w, none) => ((s.1 ++ w.toList, s.2 ++ [info]), none)

/-- Zip branch of `prepareEntriesToSign`, after `zip.OpenReader`. -/
def prepareEntriesToSignZip (a : Archive) (files : List (ContainerEntry μ ε)) :
    List (Str × Bytes) × List FileToSign × Option ε :=
  let r := zipExtractLoop a files
  (r.1, if r.2.2.isSome then [] else r.2.1, r.2.2)

/-- macOS tar.gz branch of `prepareEntriesToSign`, driven by
`eachTarGzEntry`; on error the staged writes remain but nil results are
returned (`fail(err)`). -/
def prepareEntriesToSignTarGz (a : Archive) (entries : List (ContainerEntry μ ε))
    (e : TarEnd ε) : List (Str × Bytes) × List FileToSign × Option ε :=
  let r := eachTarGzEntry (tarExtractStep a) entries e ([], [])
  (r.1.1, if r.2.isSome then [] else r.1.2, r.2)

/-- Embeds `(a *archive) prepareEntriesToSign()`.  `os.MkdirAll` on the
(possibly pre-existing) staging directory is idempotent and modeled as
success.  Returns: the staged file writes, the returned sign-info list,
and the returned error. -/
def prepareEntriesToSign (a : Archive) (d : ContainerData μ ε) :
    List (Str × Bytes) × List FileToSign × Option ε :=
  if a.archiveType = ArchiveType.zipArchive then prepareEntriesToSignZip a d.zipFiles
  else if a.macOS then prepareEntriesToSignTarGz a d.tarEntries d.tarEnd
  else ([], [], none)

/-- Embeds the `eachZipEntry` callback of `writeSignedArchive`:
`zw.CreateHeader(&f.FileHeader)` (header copied unchanged), then the
content is read from the staged file if the entry has sign info and from
the original entry otherwise (`staging` maps a staged path to the bytes
`os.Open`+copy yields, or to its error). -/
def zipRepackStep (a : Archive) (staging : Str → Except ε Bytes)
    (s : List (FileHeader μ × Bytes)) (f : ContainerEntry μ ε) :
    List (FileHeader μ × Bytes) × Option ε :=
  let r : Except ε Bytes :=
    match a.entrySignInfo f.header.name with
    | some info => staging info.fullPath
    | none => f.content
  match r with
  | Except.error e => (s, some e)
  | Except.ok b => (s ++ [(f.header, b)], none)

/-- Zip branch of `writeSignedArchive`: the new archive's entry list and
the returned error.  `defer zr.Close()` discards `zrCloseErr`; the
`zw.Close()` error is folded in with first-error-wins. -/
def writeSignedArchiveZip (a : Archive) (files : List (ContainerEntry μ ε))
    (staging : Str → Except ε Bytes) (zwCloseErr : Option ε) (_zrCloseErr : Option ε) :
    List (FileHeader μ × Bytes) × Option ε :=
  let r := eachZipEntry (zipRepackStep a staging) files []
  (r.1, firstErr r.2 zwCloseErr)

/-- Embeds the `eachTarGzEntry` callback of `writeSignedArchive`: the body
is `if info := a.entrySignInfo(header.Name); info != nil { }` - the sign
info is computed and then NOTHING is written, neither header nor content,
for any entry. -/
def tarRepackStep (a : Archive) (s : List (FileHeader μ × Bytes))
    (h : FileHeader μ) (_c : Except ε Bytes) :
    List (FileHeader μ × Bytes) × Option ε :=
  match a.entrySignInfo h.name with
  | some _ => (s, none)
  | none => (s, none)

/-- macOS tar.gz branch of `writeSignedArchive`: `defer cl.Close()`
discards `clCloseErr`; `tw.Close()` and then the gzip writer's `Close()`
errors are folded in with first-error-wins. -/
def writeSignedArchiveTarGz (a : Archive) (entries : List (ContainerEntry μ ε))
    (e : TarEnd ε) (twCloseErr gzwCloseErr : Option ε) (_clCloseErr : Option ε) :
    List (FileHeader μ × Bytes) × Option ε :=
  let r := eachTarGzEntry (tarRepackStep a) entries e []
  (r.1, firstErr (firstErr r.2 twCloseErr) gzwCloseErr)

/-- Embeds `(a *archive) writeSignedArchive(w)`: dispatches exactly like
the source (`archiveType == zipArchive`, else `macOS`); `openErr` is the
error of `a.openZip()` / `a.openTarGz()`.  On the remaining path the
source function simply ends without a return statement (it does not
compile as written); it is modeled as writing nothing and returning nil. -/
def writeSignedArchive (a : Archive) (d : ContainerData μ ε)
    (staging : Str → Except ε Bytes)
    (openErr zwCloseErr zrCloseErr twCloseErr gzwCloseErr clCloseErr : Option ε) :
    List (FileHeader μ × Bytes) × Option ε :=
  if a.archiveType = ArchiveType.zipArchive then
    match openErr with
    | some e => ([], some e)
    | none => writeSignedArchiveZip a d.zipFiles staging zwCloseErr zrCloseErr
  else if a.macOS then
    match openErr with
    | some e => ([], some e)
    | none => writeSignedArchiveTarGz a d.tarEntries d.tarEnd twCloseErr gzwCloseErr clCloseErr
  else ([], none)

/-- The destination path used by `repackSignedEntries`:
`filepath.Join(*destinationDir, a.path+".withSignedContent")`. -/
def targetPath (destinationDir : Str) (a : Archive) : Str :=
  pathJoin destinationDir (a.path ++ s2l (".withSignedContent"))

/-- Embeds `(a *archive) repackSignedEntries()`.  The first component is
the file left at `targetPath` (`none` when no file was created there):
the source calls `os.Create(targetPath)` DIRECTLY at the destination and
never removes it, so the (possibly truncated) new archive sits at the
final path even when an error is returned.  `f.Close()`'s error is folded
in with first-error-wins. -/
def repackSignedEntries (_destinationDir : Str) (a : Archive) (d : ContainerData μ ε)
    (staging : Str → Except ε Bytes)
    (createErr openErr zwCloseErr zrCloseErr twCloseErr gzwCloseErr clCloseErr
      fCloseErr : Option ε) :
    Option (List (FileHeader μ × Bytes)) × Option ε :=
  if a.archiveType = ArchiveType.zipArchive ∨ a.macOS = true then
    match createErr with
    | some e => (none, some e)
    | none =>
      let r := writeSignedArchive a d staging openErr zwCloseErr zrCloseErr twCloseErr
        gzwCloseErr clCloseErr
      (some r.1, firstErr r.2 fCloseErr)
  else (none, none)

/-- Kinds of whole-archive sign requests (spec data model §3). -/
inductive RequestKind : Type
  | notarization
  | detachedSignature
deriving DecidableEq

/-- A whole-archive sign request (no entry name), as in the spec's
SignRequest data model. -/
structure WholeArchiveRequest : Type where
  archivePath : Str
  path : Str
  kind : RequestKind
deriving DecidableEq

/-- Modelled from the spec: `(a *archive) prepareNotarization()` has an
empty body in the source (§4.5 of the spec defines the intended
behavior): exactly one whole-archive request of kind notarization against
the final repacked tar.gz when the archive is macOS, and none otherwise. -/
def prepareNotarization (a : Archive) : List WholeArchiveRequest :=
  if a.macOS then
    [{ archivePath := a.path
       path := a.path ++ s2l (".withSignedContent")
       kind := RequestKind.notarization }]
  else []

/-- Modelled from the spec: `(a *archive) prepareSignatures()` has an empty
body in the source (§4.6 of the spec defines the intended behavior):
exactly one whole-archive request of kind detached-signature, pointing at
the companion `.sig` file, for every archive regardless of kind. -/
def prepareSignatures (a : Archive) : List WholeArchiveRequest :=
  [{ archivePath := a.path
     path := a.path ++ s2l (".sig")
     kind := RequestKind.detachedSignature }]

/-- Applies a list of file writes (`os.Create` + copy, i.e. overwrite
semantics) to a file-system state, in order. -/
def applyWrites (ws : List (Str × Bytes)) (fs : Str → Option Bytes) : Str → Option Bytes :=
  match ws with
  | [] => fs
  | (q, b) :: rest => applyWrites rest (fun p => if p = q then some b else fs p)

/-- The payload of a successful read (`[]` for a failed one); used to
state round-trip results. -/
def okBytes : Except ε Bytes → Bytes
  | Except.ok b => b
  | Except.error _ => []

/-- The last write a write list performs at path `p`, if any; used to
reason about `applyWrites`. -/
def lastWriteTo (ws : List (Str × Bytes)) (p : Str) : Option Bytes :=
  match ws with
  | [] => none
  | (q, b) :: rest =>
    match lastWriteTo rest p with
    | some c => some c
    | none => if p = q then some b else none

/-! Characterizations of the glob matcher on the patterns the program
uses, and of the suffix test. -/

theorem mem_starSuffixes {n s : Str} : s ∈ starSuffixes n ↔ ∃ pre, n = pre ++ s ∧ sep ∉ pre := by
  induction n generalizing s with
  | nil =>
    constructor
    · intro h
      have hs : s = [] := by simpa [starSuffixes] using h
      subst hs
      exact ⟨[], rfl, by simp⟩
    · rintro ⟨pre, h, -⟩
      obtain ⟨rfl, rfl⟩ := List.append_eq_nil.mp h.symm
      simp [starSuffixes]
  | cons d n1 ih =>
    constructor
    · intro h
      simp only [starSuffixes, List.mem_cons] at h
      rcases h with rfl | h2
      · exact ⟨[], rfl, by simp⟩
      · by_cases hd : d = sep
        · simp [hd] at h2
        · rw [if_neg hd] at h2
          obtain ⟨pre, rfl, hpre⟩ := ih.mp h2
          refine ⟨d :: pre, rfl, ?_⟩
          simp only [List.mem_cons, not_or]
          exact ⟨fun hh => hd hh.symm, hpre⟩
    · rintro ⟨pre, h, hpre⟩
      cases pre with
      | nil =>
        simp only [List.nil_append] at h
        simp only [starSuffixes, List.mem_cons]
        exact Or.inl h.symm
      | cons a t =>
        rw [List.cons_append] at h
        injection h with h1 h2
        subst h1
        have hd : ¬ d = sep := fun hh => hpre (by rw [hh]; exact List.mem_cons_self _ _)
        simp only [starSuffixes, List.mem_cons, if_neg hd]
        exact Or.inr (ih.mpr ⟨t, h2, fun hm => hpre (List.mem_cons_of_mem _ hm)⟩)

theorem globMatchFn_single_star (n : Str) :
    globMatchFn ('*' :: []) n = true ↔ sep ∉ n := by
  have hu : globMatchFn ('*' :: []) n = (starSuffixes n).any (globMatchFn []) := rfl
  rw [hu, List.any_eq_true]
  constructor
  · rintro ⟨s, hs, he⟩
    have hse : s = [] := by
      cases s with
      | nil => rfl
      | cons a t => simp [globMatchFn] at he
    subst hse
    obtain ⟨pre, hp, hpre⟩ := mem_starSuffixes.mp hs
    rw [hp, List.append_nil]
    exact hpre
  · intro h
    exact ⟨[], mem_starSuffixes.mpr ⟨n, by simp, h⟩, rfl⟩

theorem globMatchFn_append_lit (lit p : Str) (h : '*' ∉ lit) (n : Str) :
    globMatchFn (lit ++ p) n = true ↔ ∃ n1, n = lit ++ n1 ∧ globMatchFn p n1 = true := by
  induction lit generalizing n with
  | nil => simp
  | cons c lit ih =>
    have hc : ¬ c = '*' := fun hh => h (by rw [hh]; exact List.mem_cons_self _ _)
    have h2 : '*' ∉ lit := fun hm => h (List.mem_cons_of_mem _ hm)
    cases n with
    | nil =>
      have hu : globMatchFn (c :: (lit ++ p)) ([] : Str) =
          if c = '*' then (starSuffixes []).any (globMatchFn (lit ++ p)) else false := rfl
      rw [List.cons_append, hu, if_neg hc]
      simp
    | cons d n1 =>
      have hu : globMatchFn (c :: (lit ++ p)) (d :: n1) =
          if c = '*' then (starSuffixes (d :: n1)).any (globMatchFn (lit ++ p))
          else (c == d && globMatchFn (lit ++ p) n1) := rfl
      rw [List.cons_append, hu, if_neg hc, Bool.and_eq_true, beq_iff_eq, ih h2]
      constructor
      · rintro ⟨rfl, m, rfl, hm⟩
        exact ⟨m, rfl, hm⟩
      · rintro ⟨m, hm, hmm⟩
        injection hm with e1 e2
        exact ⟨e1.symm, m, e2, hmm⟩

theorem globMatchFn_star_slash_star (t : Str) :
    globMatchFn ('*' :: sep :: '*' :: []) t = true ↔
      ∃ t1 t2, t = t1 ++ sep :: t2 ∧ sep ∉ t1 ∧ sep ∉ t2 := by
  have hu : globMatchFn ('*' :: sep :: '*' :: []) t =
      (starSuffixes t).any (globMatchFn (sep :: '*' :: [])) := rfl
  rw [hu, List.any_eq_true]
  constructor
  · rintro ⟨s, hs, he⟩
    obtain ⟨pre, rfl, hpre⟩ := mem_starSuffixes.mp hs
    cases s with
    | nil =>
      have hu2 : globMatchFn (sep :: '*' :: []) ([] : Str) =
          if sep = '*' then (starSuffixes []).any (globMatchFn ('*' :: [])) else false := rfl
      rw [hu2, if_neg (by decide)] at he
      exact absurd he (by simp)
    | cons d s1 =>
      have hu2 : globMatchFn (sep :: '*' :: []) (d :: s1) =
          if sep = '*' then (starSuffixes (d :: s1)).any (globMatchFn ('*' :: []))
          else (sep == d && globMatchFn ('*' :: []) s1) := rfl
      rw [hu2, if_neg (by decide), Bool.and_eq_true, beq_iff_eq] at he
      obtain ⟨hd, hm⟩ := he
      subst hd
      rw [globMatchFn_single_star] at hm
      exact ⟨pre, s1, rfl, hpre, hm⟩
  · rintro ⟨t1, t2, rfl, h1, h2⟩
    refine ⟨sep :: t2, mem_starSuffixes.mpr ⟨t1, rfl, h1⟩, ?_⟩
    have hu2 : globMatchFn (sep :: '*' :: []) (sep :: t2) =
        if sep = '*' then (starSuffixes (sep :: t2)).any (globMatchFn ('*' :: []))
        else (sep == sep && globMatchFn ('*' :: []) t2) := rfl
    rw [hu2, if_neg (by decide), Bool.and_eq_true, beq_iff_eq]
    exact ⟨rfl, (globMatchFn_single_star t2).mpr h2⟩

theorem pathMatch_goBin (n : Str) :
    pathMatch (s2l ("go/bin/*")) n = true ↔ ∃ t, n = s2l ("go/bin/") ++ t ∧ sep ∉ t := by
  have he : s2l ("go/bin/*") = s2l ("go/bin/") ++ ('*' :: []) := rfl
  rw [pathMatch, he, globMatchFn_append_lit _ _ (by decide) n]
  simp only [globMatchFn_single_star]

theorem pathMatch_pkgTool (n : Str) :
    pathMatch (s2l ("pkg/tool/*/*")) n = true ↔
      ∃ t1 t2, n = s2l ("pkg/tool/") ++ t1 ++ sep :: t2 ∧ sep ∉ t1 ∧ sep ∉ t2 := by
  have he : s2l ("pkg/tool/*/*") = s2l ("pkg/tool/") ++ ('*' :: sep :: '*' :: []) := rfl
  rw [pathMatch, he, globMatchFn_append_lit _ _ (by decide) n]
  simp only [globMatchFn_star_slash_star]
  constructor
  · rintro ⟨m, rfl, t1, t2, rfl, h1, h2⟩
    exact ⟨t1, t2, by rw [List.append_assoc], h1, h2⟩
  · rintro ⟨t1, t2, rfl, h1, h2⟩
    exact ⟨t1 ++ sep :: t2, by rw [List.append_assoc], t1, t2, rfl, h1, h2⟩

theorem hasSuffix_iff (s t : Str) : hasSuffix s t = true ↔ ∃ r, s = r ++ t := by
  rw [hasSuffix, List.isSuffixOf_iff_suffix]
  constructor
  · rintro ⟨r, hr⟩
    exact ⟨r, hr.symm⟩
  · rintro ⟨r, hr⟩
    exact ⟨r, hr.symm⟩

/-- C3: the Entry Selector returns a sign request exactly as the spec says. -/
theorem c3_entrySignInfo_spec (a : Archive) (name : Str) :
    (a.archiveType = ArchiveType.zipArchive →
      (((∃ s, name = s ++ s2l (".exe")) →
        a.entrySignInfo name = some
          { archivePath := a.path
            fullPath := pathJoin a.entryExtractDir name
            authenticode := s2l ("Microsoft400") }) ∧
       ((¬ ∃ s, name = s ++ s2l (".exe")) → a.entrySignInfo name = none)))
    ∧ (a.archiveType = ArchiveType.tarGzArchive → a.macOS = true →
      ((((∃ t, name = s2l ("go/bin/") ++ t ∧ sep ∉ t) ∨
         (∃ t1 t2, name = s2l ("pkg/tool/") ++ t1 ++ sep :: t2 ∧ sep ∉ t1 ∧ sep ∉ t2)) →
        a.entrySignInfo name = some
          { archivePath := a.path
            fullPath := pathJoin a.entryExtractDir name
            authenticode := s2l ("MacDeveloperHarden") }) ∧
       ((¬ ((∃ t, name = s2l ("go/bin/") ++ t ∧ sep ∉ t) ∨
            (∃ t1 t2, name = s2l ("pkg/tool/") ++ t1 ++ sep :: t2 ∧ sep ∉ t1 ∧ sep ∉ t2))) →
        a.entrySignInfo name = none)))
    ∧ (a.archiveType = ArchiveType.tarGzArchive → a.macOS = false →
        a.entrySignInfo name = none) := by
  refine ⟨?_, ?_, ?_⟩
  · intro hz
    unfold Archive.entrySignInfo
    rw [if_pos hz]
    constructor
    · intro hex
      rw [if_pos ((hasSuffix_iff name (s2l (".exe"))).mpr hex)]
    · intro hex
      have hb : ¬ hasSuffix name (s2l (".exe")) = true :=
        fun hh => hex ((hasSuffix_iff name (s2l (".exe"))).mp hh)
      rw [if_neg hb]
  · intro ht hm
    have hz : ¬ a.archiveType = ArchiveType.zipArchive := by
      rw [ht]; intro hh; cases hh
    unfold Archive.entrySignInfo
    rw [if_neg hz, if_pos hm]
    constructor
    · intro hmatch
      have hb : (matchOrPanic (s2l ("go/bin/*")) name ||
          matchOrPanic (s2l ("pkg/tool/*/*")) name) = true := by
        rw [Bool.or_eq_true]
        rcases hmatch with h1 | h2
        · exact Or.inl ((pathMatch_goBin name).mpr h1)
        · exact Or.inr ((pathMatch_pkgTool name).mpr h2)
      rw [if_pos hb]
    · intro hmatch
      have hb : ¬ (matchOrPanic (s2l ("go/bin/*")) name ||
          matchOrPanic (s2l ("pkg/tool/*/*")) name) = true := by
        rw [Bool.or_eq_true]
        rintro (h1 | h2)
        · exact hmatch (Or.inl ((pathMatch_goBin name).mp h1))
        · exact hmatch (Or.inr ((pathMatch_pkgTool name).mp h2))
      rw [if_neg hb]
  · intro ht hm
    have hz : ¬ a.archiveType = ArchiveType.zipArchive := by
      rw [ht]; intro hh; cases hh
    unfold Archive.entrySignInfo
    rw [if_neg hz, if_neg (by rw [hm]; exact Bool.false_ne_true)]

/-- Witness for C3 at a concrete macOS tar.gz archive and entry name. -/
theorem c3_entrySignInfo_spec_witness :
    (Archive.mk (s2l ("go1-darwin.tar.gz")) ArchiveType.tarGzArchive true).entrySignInfo
        (s2l ("go/bin/go")) =
      some
        { archivePath := s2l ("go1-darwin.tar.gz")
          fullPath := pathJoin (Archive.mk (s2l ("go1-darwin.tar.gz"))
            ArchiveType.tarGzArchive true).entryExtractDir (s2l ("go/bin/go"))
          authenticode := s2l ("MacDeveloperHarden") } :=
  ((c3_entrySignInfo_spec (Archive.mk (s2l ("go1-darwin.tar.gz")) ArchiveType.tarGzArchive true)
      (s2l ("go/bin/go"))).2.1 rfl rfl).1
    (Or.inl ⟨s2l ("go"), by decide, by decide⟩)

/-- C2 (refuted): the base filename `go1.21.0-windows-amd64.zip` matches
the spec's `go*.zip` rule, yet `newArchive` classifies it as an unknown
archive type, because the source passes the path as the pattern and the
literal glob as the name (swapped arguments to `matchOrPanic`). -/
theorem c2_newArchive_misclassifies_zip :
    pathMatch (s2l ("go*.zip")) (s2l ("go1.21.0-windows-amd64.zip")) = true ∧
    newArchive (s2l ("go1.21.0-windows-amd64.zip")) =
      Except.error (s2l ("unknown archive type: ") ++ s2l ("go1.21.0-windows-amd64.zip")) :=
  ⟨by decide, rfl⟩

/-- C1 (refuted for tar.gz): the zip branch does behave as claimed at a
concrete archive - `a.exe` gets the staged signed bytes under its
unchanged header, `b.txt` is copied verbatim (first conjunct) - but
repacking a macOS tar.gz whose single entry `go/bin/go` has sign info
(second conjunct) produces an archive with NO entries at all (third
conjunct): the tar branch callback of `writeSignedArchive` never writes a
header or content. -/
theorem c1_tarGz_repack_drops_entries :
    (writeSignedArchiveZip (Archive.mk (s2l ("go1.zip")) ArchiveType.zipArchive false)
        [ContainerEntry.mk (FileHeader.mk (s2l ("a.exe")) 0)
          (Except.ok ([1] : Bytes) : Except Nat Bytes),
         ContainerEntry.mk (FileHeader.mk (s2l ("b.txt")) 1) (Except.ok ([2] : Bytes))]
        (fun p =>
          if p = pathJoin (s2l ("go1.zip.extracted")) (s2l ("a.exe")) then
            Except.ok ([7, 7] : Bytes)
          else Except.error 0)
        none none) =
      ([(FileHeader.mk (s2l ("a.exe")) 0, ([7, 7] : Bytes)),
        (FileHeader.mk (s2l ("b.txt")) 1, ([2] : Bytes))], none) ∧
    (Archive.mk (s2l ("go1-darwin.tar.gz")) ArchiveType.tarGzArchive true).entrySignInfo
        (s2l ("go/bin/go")) ≠ none ∧
    (writeSignedArchiveTarGz
        (Archive.mk (s2l ("go1-darwin.tar.gz")) ArchiveType.tarGzArchive true)
        [ContainerEntry.mk (FileHeader.mk (s2l ("go/bin/go")) 0)
          (Except.ok ([9, 9] : Bytes) : Except Nat Bytes)]
        TarEnd.eof none none none) =
      (([] : List (FileHeader Nat × Bytes)), (none : Option Nat)) :=
  ⟨by decide, by decide, by decide⟩

/-- C4 (refuted): a zip repack whose only entry fails to read returns an
error AND leaves the partially-written archive at the final destination
path: `os.Create` is pointed directly at `targetPath`, with no temporary
path and no cleanup on error. -/
theorem c4_repack_leaves_file_at_destination :
    (repackSignedEntries (s2l ("eng/signing/signed"))
        (Archive.mk (s2l ("go1.zip")) ArchiveType.zipArchive false)
        (ContainerData.mk
          [ContainerEntry.mk (FileHeader.mk (s2l ("a.txt")) 0)
            (Except.error (7 : Nat) : Except Nat Bytes)]
          [] TarEnd.eof)
        (fun _ => Except.error 0) none none none none none none none none) =
      (some ([] : List (FileHeader Nat × Bytes)), some (7 : Nat)) := by decide

/-- C6 (refuted): extracting `go/bin/go` from a macOS tar.gz stages its
bytes at `<stagingDir>/go/bin/go/go/bin/go` (the tar branch joins the
entry name onto the already-complete staged path) while the recorded sign
request points at `<stagingDir>/go/bin/go`; the two paths differ. -/
theorem c6_tar_extract_path_mismatch :
    (prepareEntriesToSignTarGz
        (Archive.mk (s2l ("go1-darwin.tar.gz")) ArchiveType.tarGzArchive true)
        [ContainerEntry.mk (FileHeader.mk (s2l ("go/bin/go")) 0)
          (Except.ok ([9] : Bytes) : Except Nat Bytes)]
        TarEnd.eof) =
      ([(pathJoin (pathJoin (s2l ("go1-darwin.tar.gz.extracted")) (s2l ("go/bin/go")))
          (s2l ("go/bin/go")), ([9] : Bytes))],
       [FileToSign.mk (s2l ("go1-darwin.tar.gz"))
          (pathJoin (s2l ("go1-darwin.tar.gz.extracted")) (s2l ("go/bin/go")))
          (s2l ("MacDeveloperHarden"))],
       (none : Option Nat)) ∧
    pathJoin (pathJoin (s2l ("go1-darwin.tar.gz.extracted")) (s2l ("go/bin/go")))
        (s2l ("go/bin/go")) ≠
      pathJoin (s2l ("go1-darwin.tar.gz.extracted")) (s2l ("go/bin/go")) :=
  ⟨by decide, by decide⟩

/-- C8: every archive yields exactly one detached-signature whole-archive
request, and exactly one notarization request iff it is macOS (none
otherwise), per the spec-modelled `prepareSignatures` and
`prepareNotarization` (their bodies are empty in the source). -/
theorem c8_whole_archive_requests (a : Archive) :
    (prepareSignatures a).map WholeArchiveRequest.kind =
      [RequestKind.detachedSignature] ∧
    (prepareNotarization a).map WholeArchiveRequest.kind =
      (if a.macOS = true then [RequestKind.notarization] else []) := by
  constructor
  · rfl
  · by_cases h : a.macOS = true
    · rw [prepareNotarization, if_pos h, if_pos h]
      rfl
    · rw [prepareNotarization, if_neg h, if_neg h]
      rfl

theorem eachTarGz_clean_then_error
    (f : σ → FileHeader μ → Except ε Bytes → σ × Option ε)
    (pre : List (ContainerEntry μ ε)) :
    ∀ (s s1 s2 : σ) (e : ε) (x : ContainerEntry μ ε)
      (post : List (ContainerEntry μ ε)) (term : TarEnd ε),
    eachTarGzEntry f pre TarEnd.eof s = (s1, none) →
    f s1 x.header x.content = (s2, some e) →
    eachTarGzEntry f (pre ++ x :: post) term s = (s2, some e) := by
  induction pre with
  | nil =>
    intro s s1 s2 e x post term h1 h2
    simp only [eachTarGzEntry, Prod.mk.injEq] at h1
    obtain ⟨rfl, -⟩ := h1
    simp [eachTarGzEntry, h2]
  | cons y pre ih =>
    intro s s1 s2 e x post term h1 h2
    rcases hf : f s y.header y.content with ⟨sy, oe⟩
    cases oe with
    | some e0 => simp [eachTarGzEntry, hf] at h1
    | none =>
      simp only [eachTarGzEntry, hf] at h1
      simp only [List.cons_append, eachTarGzEntry, hf]
      exact ih sy s1 s2 e x post term h1 h2

theorem eachZip_clean_then_error
    (f : σ → ContainerEntry μ ε → σ × Option ε)
    (pre : List (ContainerEntry μ ε)) :
    ∀ (s s1 s2 : σ) (e : ε) (x : ContainerEntry μ ε)
      (post : List (ContainerEntry μ ε)),
    eachZipEntry f pre s = (s1, none) →
    f s1 x = (s2, some e) →
    eachZipEntry f (pre ++ x :: post) s = (s2, some e) := by
  induction pre with
  | nil =>
    intro s s1 s2 e x post h1 h2
    simp only [eachZipEntry, Prod.mk.injEq] at h1
    obtain ⟨rfl, -⟩ := h1
    simp [eachZipEntry, h2]
  | cons y pre ih =>
    intro s s1 s2 e x post h1 h2
    rcases hf : f s y with ⟨sy, oe⟩
    cases oe with
    | some e0 => simp [eachZipEntry, hf] at h1
    | none =>
      simp only [eachZipEntry, hf] at h1
      simp only [List.cons_append, eachZipEntry, hf]
      exact ih sy s1 s2 e x post h1 h2

/-- C10: end-of-archive is success, errors abort unchanged. -/
theorem c10_iteration_error_discipline :
    (∀ (f : σ → FileHeader μ → Except ε Bytes → σ × Option ε) (s : σ),
      eachTarGzEntry f [] TarEnd.eof s = (s, none)) ∧
    (∀ (f : σ → FileHeader μ → Except ε Bytes → σ × Option ε) (s : σ) (e : ε),
      eachTarGzEntry f [] (TarEnd.fail e) s = (s, some e)) ∧
    (∀ (f : σ → FileHeader μ → Except ε Bytes → σ × Option ε)
       (pre post : List (ContainerEntry μ ε)) (x : ContainerEntry μ ε)
       (s s1 s2 : σ) (e : ε) (term : TarEnd ε),
      eachTarGzEntry f pre TarEnd.eof s = (s1, none) →
      f s1 x.header x.content = (s2, some e) →
      eachTarGzEntry f (pre ++ x :: post) term s = (s2, some e)) ∧
    (∀ (f : σ → ContainerEntry μ ε → σ × Option ε) (s : σ),
      eachZipEntry f [] s = (s, none)) ∧
    (∀ (f : σ → ContainerEntry μ ε → σ × Option ε)
       (pre post : List (ContainerEntry μ ε)) (x : ContainerEntry μ ε)
       (s s1 s2 : σ) (e : ε),
      eachZipEntry f pre s = (s1, none) →
      f s1 x = (s2, some e) →
      eachZipEntry f (pre ++ x :: post) s = (s2, some e)) :=
  ⟨fun _ _ => rfl,
   fun _ _ _ => rfl,
   fun f pre post x s s1 s2 e term h1 h2 =>
     eachTarGz_clean_then_error f pre s s1 s2 e x post term h1 h2,
   fun _ _ => rfl,
   fun f pre post x s s1 s2 e h1 h2 =>
     eachZip_clean_then_error f pre s s1 s2 e x post h1 h2⟩

/-- Witness for C10: a concrete counting callback that fails on the second
entry; the third entry is never visited and the error comes back as is. -/
theorem c10_iteration_error_discipline_witness :
    eachTarGzEntry
        (fun (s : Nat) (_ : FileHeader Nat) (_ : Except Nat Bytes) =>
          (s + 1, if s = 0 then none else some 5))
        [ContainerEntry.mk (FileHeader.mk (s2l ("a")) 0) (Except.ok []),
         ContainerEntry.mk (FileHeader.mk (s2l ("b")) 0) (Except.ok []),
         ContainerEntry.mk (FileHeader.mk (s2l ("c")) 0) (Except.ok [])]
        (TarEnd.fail 9) 0 = (2, some 5) ∧
    eachZipEntry
        (fun (s : Nat) (_ : ContainerEntry Nat Nat) =>
          (s + 1, if s = 0 then none else some 5))
        [ContainerEntry.mk (FileHeader.mk (s2l ("a")) 0) (Except.ok []),
         ContainerEntry.mk (FileHeader.mk (s2l ("b")) 0) (Except.ok []),
         ContainerEntry.mk (FileHeader.mk (s2l ("c")) 0) (Except.ok [])]
        0 = (2, some 5) := by
  constructor
  · exact (c10_iteration_error_discipline.2.2.1
      (fun s _ _ => (s + 1, if s = 0 then none else some 5))
      [ContainerEntry.mk (FileHeader.mk (s2l ("a")) 0) (Except.ok [])]
      [ContainerEntry.mk (FileHeader.mk (s2l ("c")) 0) (Except.ok [])]
      (ContainerEntry.mk (FileHeader.mk (s2l ("b")) 0) (Except.ok []))
      0 1 2 5 (TarEnd.fail 9) rfl rfl)
  · exact (c10_iteration_error_discipline.2.2.2.2
      (fun s _ => (s + 1, if s = 0 then none else some 5))
      [ContainerEntry.mk (FileHeader.mk (s2l ("a")) 0) (Except.ok [])]
      [ContainerEntry.mk (FileHeader.mk (s2l ("c")) 0) (Except.ok [])]
      (ContainerEntry.mk (FileHeader.mk (s2l ("b")) 0) (Except.ok []))
      0 1 2 5 rfl rfl)


theorem zipRepack_copies (a : Archive) (staging : Str → Except ε Bytes) :
    ∀ (files : List (ContainerEntry μ ε)) (acc : List (FileHeader μ × Bytes)),
    (∀ f ∈ files, a.entrySignInfo f.header.name = none) →
    (∀ f ∈ files, f.content.isOk = true) →
    eachZipEntry (zipRepackStep a staging) files acc =
      (acc ++ files.map (fun f => (f.header, okBytes f.content)), none) := by
  intro files
  induction files with
  | nil =>
    intro acc _ _
    simp [eachZipEntry]
  | cons f rest ih =>
    intro acc hn ho
    have hn1 : a.entrySignInfo f.header.name = none := hn f (List.mem_cons_self _ _)
    have ho1 : f.content.isOk = true := ho f (List.mem_cons_self _ _)
    obtain ⟨b, hb⟩ : ∃ b, f.content = Except.ok b := by
      cases hc : f.content with
      | ok b => exact ⟨b, rfl⟩
      | error e => rw [hc] at ho1; exact absurd ho1 (by simp [Except.isOk, Except.toBool])
    have hstep : zipRepackStep a staging acc f =
        (acc ++ [(f.header, okBytes f.content)], none) := by
      simp [zipRepackStep, hn1, hb, okBytes]
    simp only [eachZipEntry, hstep]
    rw [ih (acc ++ [(f.header, okBytes f.content)])
      (fun g hg => hn g (List.mem_cons_of_mem _ hg))
      (fun g hg => ho g (List.mem_cons_of_mem _ hg))]
    simp

/-- C5: repacking a zip archive in which no entry has sign info copies
every entry - same order, identical header, identical bytes - and returns
only the writer close error (nil on a clean run). -/
theorem c5_zip_roundtrip (a : Archive) (files : List (ContainerEntry μ ε))
    (staging : Str → Except ε Bytes) (zwCloseErr zrCloseErr : Option ε)
    (hnone : ∀ f ∈ files, a.entrySignInfo f.header.name = none)
    (hok : ∀ f ∈ files, f.content.isOk = true) :
    writeSignedArchiveZip a files staging zwCloseErr zrCloseErr =
      (files.map (fun f => (f.header, okBytes f.content)), zwCloseErr) := by
  rw [writeSignedArchiveZip]
  rw [zipRepack_copies a staging files [] hnone hok]
  simp [firstErr]

/-- Witness for C5: a concrete two-entry zip archive with no signable
entries round-trips unchanged. -/
theorem c5_zip_roundtrip_witness :
    writeSignedArchiveZip (Archive.mk (s2l ("go1.zip")) ArchiveType.zipArchive false)
        [ContainerEntry.mk (FileHeader.mk (s2l ("a.txt")) 0)
          (Except.ok ([1] : Bytes) : Except Nat Bytes),
         ContainerEntry.mk (FileHeader.mk (s2l ("b.txt")) 1)
          (Except.ok ([2, 3] : Bytes))]
        (fun _ => Except.error 0) none none =
      ([(FileHeader.mk (s2l ("a.txt")) 0, ([1] : Bytes)),
        (FileHeader.mk (s2l ("b.txt")) 1, ([2, 3] : Bytes))], none) := by
  rw [c5_zip_roundtrip _ _ _ _ _ (by decide) (by decide)]
  simp [okBytes]


theorem applyWrites_eq (ws : List (Str × Bytes)) :
    ∀ (fs : Str → Option Bytes) (p : Str),
    applyWrites ws fs p =
      (match lastWriteTo ws p with
       | some b => some b
       | none => fs p) := by
  induction ws with
  | nil => intro fs p; rfl
  | cons qb rest ih =>
    intro fs p
    rcases qb with ⟨q, b⟩
    simp only [applyWrites, lastWriteTo]
    rw [ih]
    cases h : lastWriteTo rest p with
    | some c => rfl
    | none =>
      by_cases hp : p = q
      · simp [hp]
      · simp [hp]

theorem applyWrites_idem (ws : List (Str × Bytes)) (fs : Str → Option Bytes) (p : Str) :
    applyWrites ws (applyWrites ws fs) p = applyWrites ws fs p := by
  rw [applyWrites_eq ws (applyWrites ws fs) p, applyWrites_eq ws fs p]
  cases h : lastWriteTo ws p with
  | some b => rfl
  | none => rfl

/-- C9: extraction is deterministic (a second run performs the very same
staged-file writes and returns the same sign requests), its writes are
overwrites, so running it twice into the same staging directory leaves
exactly the state of one run, and the second run succeeds whenever the
first did. -/
theorem c9_extraction_idempotent (a : Archive) (d : ContainerData μ ε)
    (fs : Str → Option Bytes)
    (hsucc : (prepareEntriesToSign a d).2.2 = none) :
    (∀ p, applyWrites (prepareEntriesToSign a d).1
        (applyWrites (prepareEntriesToSign a d).1 fs) p =
      applyWrites (prepareEntriesToSign a d).1 fs p) ∧
    (prepareEntriesToSign a d).2.2 = none :=
  ⟨fun p => applyWrites_idem _ fs p, hsucc⟩

/-- Witness for C9 at a concrete zip archive with one signable entry. -/
theorem c9_extraction_idempotent_witness :
    applyWrites (prepareEntriesToSign
          (Archive.mk (s2l ("go1.zip")) ArchiveType.zipArchive false)
          (ContainerData.mk
            [ContainerEntry.mk (FileHeader.mk (s2l ("a.exe")) 0)
              (Except.ok ([5] : Bytes) : Except Nat Bytes)]
            [] TarEnd.eof)).1
        (applyWrites (prepareEntriesToSign
          (Archive.mk (s2l ("go1.zip")) ArchiveType.zipArchive false)
          (ContainerData.mk
            [ContainerEntry.mk (FileHeader.mk (s2l ("a.exe")) 0)
              (Except.ok ([5] : Bytes) : Except Nat Bytes)]
            [] TarEnd.eof)).1 (fun _ => none))
        (pathJoin (s2l ("go1.zip.extracted")) (s2l ("a.exe"))) =
      applyWrites (prepareEntriesToSign
          (Archive.mk (s2l ("go1.zip")) ArchiveType.zipArchive false)
          (ContainerData.mk
            [ContainerEntry.mk (FileHeader.mk (s2l ("a.exe")) 0)
              (Except.ok ([5] : Bytes) : Except Nat Bytes)]
            [] TarEnd.eof)).1 (fun _ => none)
        (pathJoin (s2l ("go1.zip.extracted")) (s2l ("a.exe"))) :=
  (c9_extraction_idempotent
    (Archive.mk (s2l ("go1.zip")) ArchiveType.zipArchive false)
    (ContainerData.mk
      [ContainerEntry.mk (FileHeader.mk (s2l ("a.exe")) 0)
        (Except.ok ([5] : Bytes) : Except Nat Bytes)]
      [] TarEnd.eof)
    (fun _ => none) (by decide)).1
    (pathJoin (s2l ("go1.zip.extracted")) (s2l ("a.exe")))

/-- C7 counterexample: a one-entry zip repack in which the entry copies
cleanly and the zip writer closes cleanly, and the ONLY failure is the
source reader close (error 7), returns nil instead of that close error:
`defer zr.Close()` discards it. -/
theorem c7_source_close_error_dropped :
    (writeSignedArchiveZip (Archive.mk (s2l ("go1.zip")) ArchiveType.zipArchive false)
        [ContainerEntry.mk (FileHeader.mk (s2l ("a.txt")) 0)
          (Except.ok ([1] : Bytes) : Except Nat Bytes)]
        (fun _ => Except.error 0) none (some 7)).2 = none := by decide

/-- C7 (amended): the first-error-wins discipline holds for every close
result the code consults - the staged file and reader in the writeFile
helpers, the zip/tar/gzip writers, and the created output file in
`repackSignedEntries` - while the close errors of the source readers
(`zr`, `cl`) never influence the returned error. -/
theorem c7_error_discipline_amended :
    (∀ (path : Str) (e : ε) (c : Except ε Bytes) (cl : Option ε),
      (writeFile path (some e) c cl).2 = some e) ∧
    (∀ (path : Str) (e : ε) (cl : Option ε),
      (writeFile path none (Except.error e) cl).2 = some e) ∧
    (∀ (path : Str) (b : Bytes) (cl : Option ε),
      (writeFile path none (Except.ok b) cl).2 = cl) ∧
    (∀ (path : Str) (ce : Option ε) (c : Except ε Bytes) (cl rcl : Option ε),
      (writeFileAndCloseReader path ce c cl rcl).2 =
        firstErr (writeFile path ce c cl).2 rcl) ∧
    (∀ (e : ε) (cl : Option ε), firstErr (some e) cl = some e) ∧
    (∀ (cl : Option ε), firstErr none cl = cl) ∧
    (∀ (a : Archive) (files : List (ContainerEntry μ ε)) (staging : Str → Except ε Bytes)
       (zw zr : Option ε),
      (writeSignedArchiveZip a files staging zw zr).2 =
        firstErr (eachZipEntry (zipRepackStep a staging) files []).2 zw) ∧
    (∀ (a : Archive) (files : List (ContainerEntry μ ε)) (staging : Str → Except ε Bytes)
       (zw zr1 zr2 : Option ε),
      writeSignedArchiveZip a files staging zw zr1 =
        writeSignedArchiveZip a files staging zw zr2) ∧
    (∀ (a : Archive) (entries : List (ContainerEntry μ ε)) (t : TarEnd ε)
       (tw gzw cl : Option ε),
      (writeSignedArchiveTarGz a entries t tw gzw cl).2 =
        firstErr (firstErr (eachTarGzEntry (tarRepackStep a) entries t []).2 tw) gzw) ∧
    (∀ (a : Archive) (entries : List (ContainerEntry μ ε)) (t : TarEnd ε)
       (tw gzw cl1 cl2 : Option ε),
      writeSignedArchiveTarGz a entries t tw gzw cl1 =
        writeSignedArchiveTarGz a entries t tw gzw cl2) ∧
    (∀ (dd : Str) (a : Archive) (d : ContainerData μ ε) (staging : Str → Except ε Bytes)
       (oe zw zr tw gzw cl fc : Option ε),
      (a.archiveType = ArchiveType.zipArchive ∨ a.macOS = true) →
      (repackSignedEntries dd a d staging none oe zw zr tw gzw cl fc).2 =
        firstErr (writeSignedArchive a d staging oe zw zr tw gzw cl).2 fc) ∧
    (∀ (dd : Str) (a : Archive) (d : ContainerData μ ε) (staging : Str → Except ε Bytes)
       (e : ε) (oe zw zr tw gzw cl fc : Option ε),
      (a.archiveType = ArchiveType.zipArchive ∨ a.macOS = true) →
      repackSignedEntries dd a d staging (some e) oe zw zr tw gzw cl fc =
        (none, some e)) := by
  refine ⟨fun _ _ _ _ => rfl, fun _ _ _ => rfl, fun _ _ _ => rfl, fun _ _ _ _ _ => rfl,
    fun _ _ => rfl, fun _ => rfl, fun _ _ _ _ _ => rfl, fun _ _ _ _ _ _ => rfl,
    fun _ _ _ _ _ _ => rfl, fun _ _ _ _ _ _ _ => rfl, ?_, ?_⟩
  · intro dd a d staging oe zw zr tw gzw cl fc h
    rw [repackSignedEntries, if_pos h]
  · intro dd a d staging e oe zw zr tw gzw cl fc h
    rw [repackSignedEntries, if_pos h]

/-- Witness for C7's amended discipline at a concrete repack whose
`os.Create` fails with error 3. -/
theorem c7_error_discipline_amended_witness :
    repackSignedEntries (s2l ("out"))
        (Archive.mk (s2l ("go1.zip")) ArchiveType.zipArchive false)
        (ContainerData.mk ([] : List (ContainerEntry Nat Nat)) [] TarEnd.eof)
        (fun _ => Except.error 0) (some 3) none none none none none none (some 4) =
      (none, some 3) :=
  c7_error_discipline_amended.2.2.2.2.2.2.2.2.2.2.2 (s2l ("out"))
    (Archive.mk (s2l ("go1.zip")) ArchiveType.zipArchive false)
    (ContainerData.mk ([] : List (ContainerEntry Nat Nat)) [] TarEnd.eof)
    (fun _ => Except.error 0) 3 none none none none none none (some 4)
    (Or.inl rfl)

end GoSign
